import Mathlib

/-!
# static/script.js : upload-and-download click handler

Shallow embedding of `src/static/script.js`.

* Part 1 embeds the regular expression of line 40,
  `/filename\*?=['"]?(?:UTF-\d['"]*)?([^;\r\n"']*)['"]?;?/i`,
  as a syntax tree run by a backtracking matcher that follows the ECMAScript
  pattern semantics (greedy quantifiers, alternatives tried in priority order,
  the empty check of the repeat matcher, case-insensitive canonicalisation,
  leftmost start index first).
* Part 2 embeds the `DOMContentLoaded` listener and the click handler with
  explicit state passing: the page is a record holding the console, the alerts,
  the issued requests, the children of `document.body`, the live object URLs and
  the pending timers.

A JavaScript string is modelled by a Lean `String` (a list of characters).  The
pattern has no `u` flag and therefore works on UTF-16 code units; every literal
of the pattern is ASCII and the only other atom is a negated class of ASCII
characters, which accepts both halves of a surrogate pair, so matching code
units and matching characters select the same piece of text.
-/

namespace Script

/-! ## Part 1 : the filename pattern -/

/-- Canonicalize of the pattern semantics under the `i` flag (no `u` flag): a
code unit is replaced by its upper-case form.  Only the ASCII letters are
folded here: a code unit of value 128 or more never canonicalises to an ASCII
code unit, and every character written in the pattern is ASCII, so the
comparison with a pattern character is the same as in the full rule. -/
def canonicalize (c : Char) : Char :=
  if 97 ≤ c.toNat ∧ c.toNat ≤ 122 then Char.ofNat (c.toNat - 32) else c

/-- Syntax of the patterns used by the script. -/
inductive Regex where
  /-- A pattern character, e.g. `=` or `\*`. -/
  | chr (c : Char)
  /-- A character class `[...]` (`neg = false`) or `[^...]` (`neg = true`). -/
  | cls (neg : Bool) (members : List Char)
  /-- Concatenation. -/
  | seq (a b : Regex)
  /-- The greedy quantifier `?`. -/
  | opt (a : Regex)
  /-- The greedy quantifier `*`. -/
  | star (a : Regex)
  /-- The capturing group `( ... )`; the script's pattern has exactly one. -/
  | group (a : Regex)
  /-- The empty pattern. -/
  | empty

/-- Matcher state: the text still to be read (the text from `endIndex` on) and
the value of capture 1 (`none` is `undefined`). -/
structure MState where
  rest : List Char
  cap : Option (List Char)
deriving DecidableEq, Repr

/-- CharacterSetMatcher: is there a member of the class whose canonical form is
the canonical form of `c`; the answer is inverted for a negated class. -/
def classMatch (neg : Bool) (members : List Char) (c : Char) : Bool :=
  (members.any (fun a => canonicalize a == canonicalize c)) != neg

/-- One atom: read one character if it is accepted. -/
def stepChar (p : Char → Bool) (s : MState) : List MState :=
  match s.rest with
  | [] => []
  | x :: xs => if p x then [{ s with rest := xs }] else []

/-- The empty check of RepeatMatcher: an iteration that ends where it started
is rejected. -/
def progressed (s t : MState) : Bool :=
  t.rest.length != s.rest.length

/-- RepeatMatcher for `*`, greedy: first one more iteration followed by the
loop again, then stopping here.  The iterations are bounded by the length of
the remaining text because each of them reads at least one character. -/
def starLoop (body : MState → List MState) : Nat → MState → List MState
  | 0, s => [s]
  | fuel + 1, s => ((body s).filter (progressed s)).flatMap (starLoop body fuel) ++ [s]

/-- The text read between state `s` and the later state `t`. -/
def consumed (s t : MState) : List Char :=
  s.rest.take (s.rest.length - t.rest.length)

/-- The backtracking matcher.  `run r s` lists every way `r` can match at `s`,
in the order in which the backtracking search of the ECMAScript semantics
tries them; the match that the search returns is the first one. -/
def run : Regex → MState → List MState
  | .chr c => fun s => stepChar (fun x => canonicalize x == canonicalize c) s
  | .cls neg members => fun s => stepChar (classMatch neg members) s
  | .seq a b => fun s => (run a s).flatMap (run b)
  | .opt a => fun s => ((run a s).filter (progressed s)) ++ [s]
  | .star a => fun s => starLoop (run a) s.rest.length s
  | .group a => fun s => (run a s).map (fun t => { t with cap := some (consumed s t) })
  | .empty => fun s => [s]

/-- A run of pattern characters. -/
def lit : List Char → Regex
  | [] => .empty
  | c :: cs => .seq (.chr c) (lit cs)

/-- The class `['"]`. -/
abbrev quoteClass : Regex := .cls false ['\'', '"']

/-- The ten characters of the class `\d`. -/
def digitChars : List Char := ['0', '1', '2', '3', '4', '5', '6', '7', '8', '9']

/-- The class `\d`. -/
abbrev digitClass : Regex := .cls false digitChars

/-- The characters excluded by the class `[^;\r\n"']`. -/
def stopChars : List Char := [';', '\r', '\n', '"', '\'']

/-- The class `[^;\r\n"']`. -/
abbrev nameClass : Regex := .cls true stopChars

/-- The group `(?:UTF-\d['"]*)`. -/
def charsetPrefix : Regex :=
  .seq (lit ['U', 'T', 'F', '-']) (.seq digitClass (.star quoteClass))

/-- What follows `filename\*?=` in the pattern:
`['"]?(?:UTF-\d['"]*)?([^;\r\n"']*)['"]?;?`. -/
def valuePattern : Regex :=
  .seq (.opt quoteClass) (.seq (.opt charsetPrefix)
    (.seq (.group (.star nameClass)) (.seq (.opt quoteClass) (.opt (.chr ';')))))

/-- The pattern of line 40:
`/filename\*?=['"]?(?:UTF-\d['"]*)?([^;\r\n"']*)['"]?;?/i`. -/
def filenamePattern : Regex :=
  .seq (lit ['f', 'i', 'l', 'e', 'n', 'a', 'm', 'e'])
    (.seq (.opt (.chr '*')) (.seq (.chr '=') valuePattern))

/-- The pattern tried at one start index: the result of the first successful
path, if there is one. -/
def matchAt (r : Regex) (text : List Char) : Option MState :=
  (run r { rest := text, cap := none }).head?

/-- RegExpBuiltinExec without the `g` flag: the start indices are tried from
the left, the end of the text included. -/
def exec (r : Regex) : List Char → Option MState
  | [] => matchAt r []
  | c :: cs =>
    match matchAt r (c :: cs) with
    | some s => some s
    | none => exec r cs

/-- Lines 38-45: the name taken from the `Content-Disposition` header
(`none` when `headers.get` returns `null`), defined when line 42 runs.
`if (disposition)` is false for the empty string as well, and
`filenameMatch && filenameMatch[1]` holds only for a match whose capture 1 is a
non-empty string. -/
def headerFilename (disposition : Option String) : Option String :=
  match disposition with
  | none => none
  | some d =>
    if d.data = [] then none
    else
      match exec filenamePattern d.data with
      | none => none
      | some m =>
        match m.cap with
        | none => none
        | some c => if c = [] then none else some (String.mk c)

/-- Lines 35-45: the download name, `fallback` being `files[0].name`. -/
def resolveFilename (disposition : Option String) (fallback : String) : String :=
  match headerFilename disposition with
  | some n => n
  | none => fallback

/-! ### Predicates used to state facts about the pattern -/

/-- A character that is not an ASCII letter. -/
def NonLetter (x : Char) : Prop :=
  ¬ (65 ≤ x.toNat ∧ x.toNat ≤ 90) ∧ ¬ (97 ≤ x.toNat ∧ x.toNat ≤ 122)

instance (x : Char) : Decidable (NonLetter x) := by
  unfold NonLetter; infer_instance

/-- The text on which a class can make no step: it is empty or begins with a
character the class refuses. -/
def Blocks (neg : Bool) (ms : List Char) (rest : List Char) : Prop :=
  ∀ y ys, rest = y :: ys → classMatch neg ms y = false

/-- Does the text begin with `UTF-` (in any letter case) and a decimal
digit? -/
def beginsWithCharset : List Char → Bool
  | a :: b :: c :: d :: e :: _ =>
    (a == 'U' || a == 'u') && (b == 'T' || b == 't') && (c == 'F' || c == 'f')
      && d == '-' && decide (e ∈ digitChars)
  | _ => false

/-- Does the pattern contain the capturing group? -/
def hasGroup : Regex → Bool
  | .chr _ => false
  | .cls _ _ => false
  | .seq a b => hasGroup a || hasGroup b
  | .opt a => hasGroup a
  | .star a => hasGroup a
  | .group _ => true
  | .empty => false

/-- The text `key` occurs in `text` when the case of ASCII letters is
ignored. -/
def OccursIgnoringCase (key text : String) : Prop :=
  key.data.map canonicalize <:+: text.data.map canonicalize

instance (key text : String) : Decidable (OccursIgnoringCase key text) := by
  unfold OccursIgnoringCase; infer_instance

/-! ## Part 2 : the listener and the click handler -/

/-- A file of the selection: its name and its bytes. -/
structure File where
  name : String
  bytes : List Nat
deriving DecidableEq, Repr

/-- The value of one entry of a `FormData`. -/
inductive PartValue where
  | file (f : File)
  | text (s : String)
deriving DecidableEq, Repr

/-- A `FormData`: its entries in the order in which they were appended. -/
abbrev FormData := List (String × PartValue)

/-- The call `formData.append(name, value)`. -/
def FormData.append (fd : FormData) (name : String) (value : PartValue) : FormData :=
  fd ++ [(name, value)]

/-- The arguments of `fetch` at lines 27-30. -/
structure Request where
  url : String
  method : String
  body : FormData
deriving DecidableEq, Repr

/-- A JavaScript error object. -/
structure JsError where
  name : String
  message : String
deriving DecidableEq, Repr

/-- A response body read by `response.blob()`. -/
structure Blob where
  bytes : List Nat
deriving DecidableEq, Repr

/-- A DOM node as far as the script uses it: its identity, its tag and the two
properties the script sets on its anchor (`href`, an object URL, and
`download`). -/
structure Node where
  id : Nat
  tag : String
  href : Option Nat
  download : Option String
deriving DecidableEq, Repr

/-- One argument of a console call. -/
inductive ConsoleArg where
  | str (s : String)
  | err (e : JsError)
deriving DecidableEq, Repr

/-- What the script does to its surroundings, one event per call. -/
inductive Event where
  /-- The call `console.log(...)`. -/
  | consoleLog (args : List ConsoleArg)
  /-- The call `console.error(...)`. -/
  | consoleError (args : List ConsoleArg)
  /-- The call `alert(msg)`. -/
  | alert (msg : String)
  /-- The call `target.addEventListener(type, ...)`. -/
  | addEventListener (target : Nat) (type : String)
  /-- The call `fetch(url, { method, body })`. -/
  | fetch (req : Request)
  /-- The call `response.blob()`. -/
  | readBody
  /-- The call `URL.createObjectURL(blob)` with the URL it returned. -/
  | createObjectURL (url : Nat)
  /-- The call `document.createElement(tag)` with the node it returned. -/
  | createElement (node : Nat) (tag : String)
  /-- The call `document.body.appendChild(node)`. -/
  | appendChild (node : Node)
  /-- The call `node.click()`. -/
  | click (node : Node)
  /-- The call `setTimeout(..., delay)`. -/
  | setTimeout (delay : Nat)
  /-- The call `document.body.removeChild(node)`. -/
  | removeChild (node : Nat)
  /-- The call `URL.revokeObjectURL(url)`. -/
  | revokeObjectURL (url : Nat)
  /-- An exception that no handler caught. -/
  | uncaught (e : JsError)
deriving DecidableEq, Repr

/-- The callback of line 56 with the anchor and the URL it closes over, and its
delay in milliseconds. -/
structure Timer where
  delay : Nat
  anchor : Node
  url : Nat
deriving DecidableEq, Repr

/-- The page the script runs in. -/
structure Page where
  /-- Every call made so far, oldest first. -/
  trace : List Event
  /-- The children of `document.body`. -/
  bodyChildren : List Node
  /-- The object URLs created and not yet revoked, each with its blob. -/
  objectURLs : List (Nat × Blob)
  /-- Identity of the next node `createElement` returns. -/
  nextNode : Nat
  /-- The next URL `createObjectURL` returns. -/
  nextURL : Nat
  /-- The timers set and not yet run. -/
  timers : List Timer
deriving DecidableEq, Repr

/-- Record one call. -/
def Page.emit (p : Page) (e : Event) : Page :=
  { p with trace := p.trace ++ [e] }

/-- The browser hands out new nodes and new object URLs: the identities in use
are below the counters. -/
def Page.Fresh (p : Page) : Prop :=
  (∀ n ∈ p.bodyChildren, n.id < p.nextNode) ∧ (∀ u ∈ p.objectURLs, u.1 < p.nextURL)

instance (p : Page) : Decidable p.Fresh := by
  unfold Page.Fresh; infer_instance

/-- The text of line 7. -/
def missingElementsMessage : String :=
  "Required elements not found. Make sure your HTML has elements with IDs \"processBtn\" and \"fileInput\""

/-- Lines 1-11, the `DOMContentLoaded` listener up to the binding of the click
handler.  The arguments are the results of the two `getElementById` calls
(`none` is `null`). -/
def setup (processBtn fileInput : Option Nat) (p : Page) : Page :=
  if processBtn.isNone || fileInput.isNone then
    p.emit (.consoleError [.str missingElementsMessage])
  else
    match processBtn with
    | some btn => p.emit (.addEventListener btn "click")
    | none => p

/-- Lines 22-24, the loop `for (let i = 0; i < files.length; i++)`.  The first
argument bounds the number of iterations; the handler passes `files.length`,
which the loop never exceeds. -/
def appendFiles (files : List File) : Nat → Nat → FormData → FormData
  | 0, _, fd => fd
  | fuel + 1, i, fd =>
    if h : i < files.length then
      appendFiles files fuel (i + 1) (fd.append "file" (.file (files.get ⟨i, h⟩)))
    else fd

/-- The error raised by line 13 when no radio button is checked: the property
`value` is read on `null`. -/
def nullValueError : JsError :=
  { name := "TypeError", message := "Cannot read properties of null (reading 'value')" }

/-- The error raised by line 36 when the selection is empty: the property
`name` is read on `undefined`. -/
def undefinedNameError : JsError :=
  { name := "TypeError", message := "Cannot read properties of undefined (reading 'name')" }

/-- The error thrown by line 32. -/
def notOkError : JsError :=
  { name := "Error", message := "Network response was not OK" }

/-- Lines 11-30, the synchronous part of the click handler.  `files` is
`fileInput.files`, `checked` the value of the checked `process_type` radio
button (`none` when `querySelector` returns `null`).  The result says whether a
`fetch` promise is now outstanding. -/
def onClick (files : List File) (checked : Option String) (p : Page) : Page × Bool :=
  match checked with
  | none => (p.emit (.uncaught nullValueError), false)
  | some processType =>
    let p1 := p.emit (.consoleLog [.str "Clicked"])
    if files.length = 0 then
      ((p1.emit (.alert "Please select a file.")), false)
    else
      let formData :=
        (appendFiles files files.length 0 []).append "process_type" (.text processType)
      (p1.emit (.fetch { url := "/process", method := "POST", body := formData }), true)

/-- A response as the handler sees it: the status, the value of
`headers.get('Content-Disposition')` and what reading the body gives. -/
structure Response where
  status : Nat
  disposition : Option String
  body : Except JsError Blob

/-- The property `response.ok`: the status is in the range 200-299. -/
def Response.ok (r : Response) : Bool :=
  decide (200 ≤ r.status) && decide (r.status ≤ 299)

/-- How the `fetch` promise settles. -/
inductive FetchOutcome where
  /-- A transport failure: the promise is rejected. -/
  | rejected (e : JsError)
  /-- A response arrived, whatever its status. -/
  | response (r : Response)

/-- Lines 61-64, the `catch` callback. -/
def onCatch (err : JsError) (p : Page) : Page :=
  (p.emit (.consoleError [.str "Error processing file:", .err err])).emit
    (.alert ("Error processing file: " ++ err.message))

/-- Lines 49-60, the second `then` callback. -/
def startDownload (blob : Blob) (filename : String) (p : Page) : Page :=
  let url := p.nextURL
  let a : Node := { id := p.nextNode, tag := "a", href := some url, download := some filename }
  { trace := p.trace ++ [.createObjectURL url, .createElement p.nextNode "a", .appendChild a,
      .click a, .setTimeout 100],
    bodyChildren := p.bodyChildren ++ [a],
    objectURLs := p.objectURLs ++ [(url, blob)],
    nextNode := p.nextNode + 1,
    nextURL := p.nextURL + 1,
    timers := p.timers ++ [{ delay := 100, anchor := a, url := url }] }

/-- Line 36, `files[0].name`. -/
def firstName (files : List File) : Except JsError String :=
  match files with
  | [] => .error undefinedNameError
  | f :: _ => .ok f.name

/-- Lines 35-45: the download name for a selection and a header value. -/
def downloadName (files : List File) (disposition : Option String) : Except JsError String :=
  match firstName files with
  | .error e => .error e
  | .ok fallback => .ok (resolveFilename disposition fallback)

/-- Lines 31-64, the promise chain once `fetch` has settled. -/
def settle (files : List File) (o : FetchOutcome) (p : Page) : Page :=
  match o with
  | .rejected e => onCatch e p
  | .response r =>
    if !r.ok then onCatch notOkError p
    else
      match downloadName files r.disposition with
      | .error e => onCatch e p
      | .ok filename =>
        let p1 :=
          match headerFilename r.disposition with
          | some n => p.emit (.consoleLog [.str "Extracted filename:", .str n])
          | none => p
        let p2 := p1.emit .readBody
        match r.body with
        | .error e => onCatch e p2
        | .ok blob => startDownload blob filename p2

/-- One click from the event to the settled promise chain. -/
def runClick (files : List File) (checked : Option String) (o : FetchOutcome) (p : Page) :
    Page :=
  match onClick files checked p with
  | (p1, true) => settle files o p1
  | (p1, false) => p1

/-- Lines 57-58, the timer callback.  `removeChild` throws when the node is not
a child of `document.body`, and then line 58 is not reached. -/
def cleanup (a : Node) (url : Nat) (p : Page) : Page :=
  if p.bodyChildren.any (fun n => n.id == a.id) then
    { p with
      trace := p.trace ++ [.removeChild a.id, .revokeObjectURL url],
      bodyChildren := p.bodyChildren.filter (fun n => n.id != a.id),
      objectURLs := p.objectURLs.filter (fun u => u.1 != url) }
  else
    p.emit (.uncaught { name := "NotFoundError", message := "The node to be removed is not a child of this node." })

/-- The timer `t` expires: it leaves the pending timers and its callback
runs. -/
def runTimer (t : Timer) (p : Page) : Page :=
  cleanup t.anchor t.url { p with timers := p.timers.erase t }

/-- The calls made between the page `before` and the later page `after`. -/
def newEvents (before after : Page) : List Event :=
  after.trace.drop before.trace.length

/-- A page on which nothing has happened yet. -/
def Page.blank : Page :=
  { trace := [], bodyChildren := [], objectURLs := [], nextNode := 0, nextURL := 0, timers := [] }

/-- Is the event a console entry? -/
def Event.isConsole : Event → Bool
  | .consoleLog _ => true
  | .consoleError _ => true
  | _ => false

/-- Is the event an alert? -/
def Event.isAlert : Event → Bool
  | .alert _ => true
  | _ => false

/-- Is the event a network request? -/
def Event.isFetch : Event → Bool
  | .fetch _ => true
  | _ => false

/-- Is the event part of a download: an object URL or an element is created,
or a node is inserted or clicked? -/
def Event.isDownload : Event → Bool
  | .createObjectURL _ => true
  | .createElement _ _ => true
  | .appendChild _ => true
  | .click _ => true
  | _ => false

/-- A page with one child in `document.body`, used as an example. -/
def samplePage : Page :=
  { trace := [], bodyChildren := [⟨0, "div", none, none⟩], objectURLs := [], nextNode := 1,
    nextURL := 0, timers := [] }

/-- A response of status 200 that names the download, used as an example. -/
def sampleResponse : Response :=
  { status := 200, disposition := some "attachment; filename=\"report.pdf\"",
    body := .ok ⟨[7, 7]⟩ }

/-- The failure path as the page shows it between `before` and `after` for the
error `err`: the console entries are the `Clicked` entry of line 14 and one
error entry, there is one alert carrying the message of the error, the body
of the response is not read, no call of the download is made, and the children
of `document.body`, the object URLs and the timers are as they were. -/
def FailureReport (before after : Page) (err : JsError) : Prop :=
  (newEvents before after).filter Event.isConsole
      = [.consoleLog [.str "Clicked"], .consoleError [.str "Error processing file:", .err err]]
    ∧ (newEvents before after).filter Event.isAlert
      = [.alert ("Error processing file: " ++ err.message)]
    ∧ Event.readBody ∉ newEvents before after
    ∧ (newEvents before after).filter Event.isDownload = []
    ∧ after.bodyChildren = before.bodyChildren
    ∧ after.objectURLs = before.objectURLs
    ∧ after.timers = before.timers

/-- The events of a successful run that come before the download: the two of
the click and, when the header gave a name, the entry of line 43. -/
def successPrefix (files : List File) (v : String) (disposition : Option String) :
    List Event :=
  [.consoleLog [.str "Clicked"],
   .fetch { url := "/process", method := "POST",
            body := files.map (fun f => ("file", PartValue.file f))
              ++ [("process_type", PartValue.text v)] }]
  ++ (match headerFilename disposition with
      | some n => [.consoleLog [.str "Extracted filename:", .str n]]
      | none => [])
  ++ [.readBody]

/-! ## Facts about the matcher -/

theorem toNat_inj {a b : Char} (h : a.toNat = b.toNat) : a = b := by
  rw [← Char.ofNat_toNat a, ← Char.ofNat_toNat b, h]

theorem toNat_canonicalize (c : Char) :
    (canonicalize c).toNat
      = if 97 ≤ c.toNat ∧ c.toNat ≤ 122 then c.toNat - 32 else c.toNat := by
  unfold canonicalize
  split
  · rename_i h
    obtain ⟨h1, h2⟩ := h
    generalize c.toNat = n at h1 h2
    interval_cases n <;> rfl
  · rfl

/-- A pattern character that is not a letter is matched by itself only. -/
theorem canonicalize_eq_iff (c x : Char) (hx : ¬ (65 ≤ x.toNat ∧ x.toNat ≤ 90))
    (hx2 : ¬ (97 ≤ x.toNat ∧ x.toNat ≤ 122)) :
    canonicalize c = canonicalize x ↔ c = x := by
  constructor
  · intro h
    have h1 := congrArg Char.toNat h
    rw [toNat_canonicalize, toNat_canonicalize] at h1
    apply toNat_inj
    split_ifs at h1 <;> omega
  · rintro rfl; rfl

/-- A class whose members are not letters accepts exactly its members (or
exactly the other characters when it is negated). -/
theorem classMatch_nonLetter (neg : Bool) (ms : List Char) (h : ∀ x ∈ ms, NonLetter x)
    (c : Char) : classMatch neg ms c = (decide (c ∈ ms) != neg) := by
  have e : ms.any (fun a => canonicalize a == canonicalize c) = decide (c ∈ ms) := by
    induction ms with
    | nil => simp
    | cons x xs ih =>
      have hx := h x (List.mem_cons_self _ _)
      have ih2 := ih (fun y hy => h y (List.mem_cons_of_mem _ hy))
      have e1 : (canonicalize x == canonicalize c) = decide (c = x) := by
        have := canonicalize_eq_iff c x hx.1 hx.2
        by_cases hc : c = x
        · subst hc; simp
        · have h2 : ¬ canonicalize x = canonicalize c := fun h3 => hc (this.1 h3.symm)
          simp [hc, h2]
      simp only [List.any_cons, ih2, e1, List.mem_cons]
      by_cases hc : c = x <;> simp [hc]
  simp only [classMatch, e]

theorem nameClass_accepts (c : Char) :
    classMatch true stopChars c = true ↔ c ∉ stopChars := by
  rw [classMatch_nonLetter true stopChars (by decide)]
  simp

theorem quoteClass_accepts (c : Char) :
    classMatch false ['\'', '"'] c = true ↔ (c = '\'' ∨ c = '"') := by
  rw [classMatch_nonLetter false _ (by decide)]
  simp

theorem digitClass_accepts (c : Char) :
    classMatch false digitChars c = true ↔ c ∈ digitChars := by
  rw [classMatch_nonLetter false digitChars (by decide)]
  simp

theorem run_seq (a b : Regex) (s : MState) :
    run (.seq a b) s = (run a s).flatMap (run b) := rfl

theorem run_opt (a : Regex) (s : MState) :
    run (.opt a) s = (run a s).filter (progressed s) ++ [s] := rfl

theorem run_empty (s : MState) : run .empty s = [s] := rfl

theorem run_group (a : Regex) (s : MState) :
    run (.group a) s = (run a s).map (fun t => { t with cap := some (consumed s t) }) := rfl

theorem run_star (a : Regex) (s : MState) :
    run (.star a) s = starLoop (run a) s.rest.length s := rfl

theorem head_seq {a b : Regex} {s t u : MState} (h1 : (run a s).head? = some t)
    (h2 : (run b t).head? = some u) : (run (.seq a b) s).head? = some u := by
  show ((run a s).flatMap (run b)).head? = some u
  cases h : run a s with
  | nil => simp [h] at h1
  | cons x xs =>
    simp only [h, List.head?_cons, Option.some.injEq] at h1
    subst h1
    simp [h2]

theorem head_opt_some {a : Regex} {s t : MState} (h1 : (run a s).head? = some t)
    (h2 : progressed s t = true) : (run (.opt a) s).head? = some t := by
  show (((run a s).filter (progressed s)) ++ [s]).head? = some t
  cases h : run a s with
  | nil => simp [h] at h1
  | cons x xs =>
    simp only [h, List.head?_cons, Option.some.injEq] at h1
    subst h1
    simp [List.filter_cons, h2]

theorem run_opt_nil {a : Regex} {s : MState} (h : run a s = []) : run (.opt a) s = [s] := by
  show ((run a s).filter (progressed s)) ++ [s] = [s]
  simp [h]

theorem head_group {a : Regex} {s t : MState} (h : (run a s).head? = some t) :
    (run (.group a) s).head? = some { t with cap := some (consumed s t) } := by
  show ((run a s).map _).head? = _
  simp [h]

theorem consumed_append (w rest : List Char) (c c2 : Option (List Char)) :
    consumed ⟨w ++ rest, c⟩ ⟨rest, c2⟩ = w := by
  simp [consumed]

theorem run_cls_cons (neg : Bool) (ms : List Char) (x : Char) (xs : List Char)
    (c : Option (List Char)) :
    run (.cls neg ms) ⟨x :: xs, c⟩ = if classMatch neg ms x then [⟨xs, c⟩] else [] := rfl

theorem run_cls_nil (neg : Bool) (ms : List Char) (c : Option (List Char)) :
    run (.cls neg ms) ⟨[], c⟩ = [] := rfl

theorem run_chr_cons (p x : Char) (xs : List Char) (c : Option (List Char)) :
    run (.chr p) ⟨x :: xs, c⟩
      = if canonicalize x = canonicalize p then [⟨xs, c⟩] else [] := by
  simp [run, stepChar]

theorem run_chr_nil (p : Char) (c : Option (List Char)) : run (.chr p) ⟨[], c⟩ = [] := rfl

theorem run_cls_blocked {neg : Bool} {ms rest : List Char} (hb : Blocks neg ms rest)
    (c : Option (List Char)) : run (.cls neg ms) ⟨rest, c⟩ = [] := by
  cases rest with
  | nil => rfl
  | cons y ys => rw [run_cls_cons, hb y ys rfl]; rfl

/-- Greedy `*` over a class reads the whole run of accepted characters
first. -/
theorem starLoop_cls_head (neg : Bool) (ms : List Char) (c : Option (List Char))
    (rest : List Char) (hb : Blocks neg ms rest) :
    ∀ (w : List Char) (fuel : Nat), w.length ≤ fuel →
      (∀ x ∈ w, classMatch neg ms x = true) →
      (starLoop (run (.cls neg ms)) fuel ⟨w ++ rest, c⟩).head? = some ⟨rest, c⟩ := by
  intro w
  induction w with
  | nil =>
    intro fuel _ _
    cases fuel with
    | zero => rfl
    | succ n =>
      simp only [starLoop, List.nil_append, run_cls_blocked hb, List.filter_nil,
        List.flatMap_nil, List.head?_cons]
  | cons x w ih =>
    intro fuel hf hw
    cases fuel with
    | zero => simp at hf
    | succ n =>
      have hx : classMatch neg ms x = true := hw x (List.mem_cons_self _ _)
      have ih2 := ih n (by simpa using hf) (fun y hy => hw y (List.mem_cons_of_mem _ hy))
      simp only [starLoop, List.cons_append, run_cls_cons, hx, if_true]
      simp [List.filter_cons, progressed, ih2]

theorem head_star_cls (neg : Bool) (ms : List Char) (c : Option (List Char))
    (w rest : List Char) (hw : ∀ x ∈ w, classMatch neg ms x = true)
    (hb : Blocks neg ms rest) :
    (run (.star (.cls neg ms)) ⟨w ++ rest, c⟩).head? = some ⟨rest, c⟩ := by
  show (starLoop (run (.cls neg ms)) (w ++ rest).length ⟨w ++ rest, c⟩).head? = _
  exact starLoop_cls_head neg ms c rest hb w _ (by simp) hw

theorem blocks_quote_of_clean (v : List Char) (hv : ∀ c ∈ v, c ∉ stopChars) :
    Blocks false ['\'', '"'] v := by
  intro y ys e
  subst e
  have hy := hv y (List.mem_cons_self _ _)
  cases h : classMatch false ['\'', '"'] y with
  | false => rfl
  | true =>
    rcases (quoteClass_accepts y).1 h with rfl | rfl <;> simp [stopChars] at hy

theorem blocks_nil (neg : Bool) (ms : List Char) : Blocks neg ms [] := by
  intro y ys e; cases e

theorem blocks_name_quote (rest : List Char) : Blocks true stopChars ('"' :: rest) := by
  intro y ys e
  cases e
  cases h : classMatch true stopChars '"' with
  | false => rfl
  | true => exact absurd ((nameClass_accepts _).1 h) (by simp [stopChars])

/-- The tail `['"]?;?` of the pattern at the end of the text. -/
theorem run_tail_nil (c : Option (List Char)) :
    (run (.seq (.opt quoteClass) (.opt (.chr ';'))) ⟨[], c⟩).head? = some ⟨[], c⟩ := by
  refine head_seq (t := ⟨[], c⟩) ?_ ?_
  · rw [run_opt_nil (run_cls_nil _ _ _)]; rfl
  · rw [run_opt_nil (run_chr_nil _ _)]; rfl

/-- The tail `['"]?;?` of the pattern at a closing double quote that ends the
text. -/
theorem run_tail_quote (c : Option (List Char)) :
    (run (.seq (.opt quoteClass) (.opt (.chr ';'))) ⟨['"'], c⟩).head? = some ⟨[], c⟩ := by
  refine head_seq (t := ⟨[], c⟩) ?_ ?_
  · refine head_opt_some ?_ (by simp [progressed])
    show (run (.cls false ['\'', '"']) ⟨'"' :: [], c⟩).head? = _
    rw [run_cls_cons, (quoteClass_accepts _).2 (Or.inr rfl)]; rfl
  · rw [run_opt_nil (run_chr_nil _ _)]; rfl

theorem canonicalize_eq_upper (c x : Char) (hx : 65 ≤ x.toNat ∧ x.toNat ≤ 90) :
    canonicalize c = canonicalize x ↔ (c.toNat = x.toNat ∨ c.toNat = x.toNat + 32) := by
  constructor
  · intro h
    have h1 := congrArg Char.toNat h
    rw [toNat_canonicalize, toNat_canonicalize] at h1
    split_ifs at h1 <;> omega
  · intro h
    apply toNat_inj
    rw [toNat_canonicalize, toNat_canonicalize]
    split_ifs <;> omega

theorem canonicalize_eq_U (c : Char) :
    canonicalize c = canonicalize 'U' ↔ (c = 'U' ∨ c = 'u') := by
  rw [canonicalize_eq_upper c 'U' (by decide)]
  constructor
  · rintro (h | h)
    · exact Or.inl (toNat_inj h)
    · exact Or.inr (toNat_inj h)
  · rintro (rfl | rfl) <;> decide

theorem canonicalize_eq_T (c : Char) :
    canonicalize c = canonicalize 'T' ↔ (c = 'T' ∨ c = 't') := by
  rw [canonicalize_eq_upper c 'T' (by decide)]
  constructor
  · rintro (h | h)
    · exact Or.inl (toNat_inj h)
    · exact Or.inr (toNat_inj h)
  · rintro (rfl | rfl) <;> decide

theorem canonicalize_eq_F (c : Char) :
    canonicalize c = canonicalize 'F' ↔ (c = 'F' ∨ c = 'f') := by
  rw [canonicalize_eq_upper c 'F' (by decide)]
  constructor
  · rintro (h | h)
    · exact Or.inl (toNat_inj h)
    · exact Or.inr (toNat_inj h)
  · rintro (rfl | rfl) <;> decide

theorem canonicalize_eq_dash (c : Char) : canonicalize c = canonicalize '-' ↔ c = '-' :=
  canonicalize_eq_iff c '-' (by decide) (by decide)

/-- The group `(?:UTF-\d['"]*)` needs a text that begins with `UTF-` and a
digit. -/
theorem run_charsetPrefix_nil (t : List Char) (c : Option (List Char))
    (h : beginsWithCharset t = false) : run charsetPrefix ⟨t, c⟩ = [] := by
  unfold charsetPrefix lit
  simp only [run, lit, digitClass]
  rcases t with _ | ⟨a, _ | ⟨b, _ | ⟨c1, _ | ⟨d, _ | ⟨e, t⟩⟩⟩⟩⟩
  · simp [stepChar]
  · by_cases ha : canonicalize a = canonicalize 'U' <;> simp [stepChar, ha]
  · by_cases ha : canonicalize a = canonicalize 'U' <;>
      by_cases hb : canonicalize b = canonicalize 'T' <;> simp [stepChar, ha, hb]
  · by_cases ha : canonicalize a = canonicalize 'U' <;>
      by_cases hb : canonicalize b = canonicalize 'T' <;>
      by_cases hc : canonicalize c1 = canonicalize 'F' <;> simp [stepChar, ha, hb, hc]
  · by_cases ha : canonicalize a = canonicalize 'U' <;>
      by_cases hb : canonicalize b = canonicalize 'T' <;>
      by_cases hc : canonicalize c1 = canonicalize 'F' <;>
      by_cases hd : canonicalize d = canonicalize '-' <;> simp [stepChar, ha, hb, hc, hd]
  · by_cases ha : canonicalize a = canonicalize 'U'
    · by_cases hb : canonicalize b = canonicalize 'T'
      · by_cases hc : canonicalize c1 = canonicalize 'F'
        · by_cases hd : canonicalize d = canonicalize '-'
          · have he : classMatch false digitChars e = false := by
              cases hm : classMatch false digitChars e with
              | false => rfl
              | true =>
                have he := (digitClass_accepts e).1 hm
                rw [canonicalize_eq_U] at ha
                rw [canonicalize_eq_T] at hb
                rw [canonicalize_eq_F] at hc
                rw [canonicalize_eq_dash] at hd
                simp only [beginsWithCharset, Bool.and_eq_false_iff, Bool.or_eq_false_iff,
                  beq_eq_false_iff_ne, ne_eq, decide_eq_false_iff_not] at h
                rcases h with (((h | h) | h) | h) | h
                · rcases ha with rfl | rfl <;> simp at h
                · rcases hb with rfl | rfl <;> simp at h
                · rcases hc with rfl | rfl <;> simp at h
                · exact absurd hd h
                · exact absurd he h
            simp [stepChar, ha, hb, hc, hd, he]
          · simp [stepChar, ha, hb, hc, hd]
        · simp [stepChar, ha, hb, hc]
      · simp [stepChar, ha, hb]
    · simp [stepChar, ha]

theorem beginsWithCharset_append_quote (name : List Char)
    (h : beginsWithCharset name = false) : beginsWithCharset (name ++ ['"']) = false := by
  rcases name with _ | ⟨a, _ | ⟨b, _ | ⟨c1, _ | ⟨d, _ | ⟨e, t⟩⟩⟩⟩⟩
  · rfl
  · rfl
  · rfl
  · rfl
  · simp [beginsWithCharset, digitChars]
  · simpa [beginsWithCharset] using h

/-- The value `"<name>"`: the capture is the text between the quotes. -/
theorem valuePattern_quoted (name : List Char) (hn : ∀ c ∈ name, c ∉ stopChars)
    (hu : beginsWithCharset name = false) :
    (run valuePattern ⟨'"' :: (name ++ ['"']), none⟩).head? = some ⟨[], some name⟩ := by
  unfold valuePattern
  refine head_seq (t := ⟨name ++ ['"'], none⟩) ?_ ?_
  · refine head_opt_some ?_ (by simp [progressed])
    rw [run_cls_cons, (quoteClass_accepts _).2 (Or.inr rfl)]; rfl
  refine head_seq (t := ⟨name ++ ['"'], none⟩) ?_ ?_
  · rw [run_opt_nil (run_charsetPrefix_nil _ _ (beginsWithCharset_append_quote name hu))]; rfl
  refine head_seq (t := ⟨['"'], some name⟩) ?_ (run_tail_quote _)
  have h := head_group (head_star_cls true stopChars none name ['"']
    (fun x hx => (nameClass_accepts x).2 (hn x hx)) (blocks_name_quote []))
  rw [h, consumed_append]

/-- The value `UTF-<d>''<v>`: the prefix is skipped and the capture is the
text after the two quotes. -/
theorem valuePattern_charset (d : Char) (hd : d ∈ digitChars) (v : List Char)
    (hv : ∀ c ∈ v, c ∉ stopChars) :
    (run valuePattern ⟨'U' :: 'T' :: 'F' :: '-' :: d :: '\'' :: '\'' :: v, none⟩).head?
      = some ⟨[], some v⟩ := by
  unfold valuePattern
  refine head_seq (t := ⟨'U' :: 'T' :: 'F' :: '-' :: d :: '\'' :: '\'' :: v, none⟩) ?_ ?_
  · have hq : classMatch false ['\'', '"'] 'U' = false := by decide
    rw [run_opt_nil (by rw [run_cls_cons, hq]; rfl)]; rfl
  refine head_seq (t := ⟨v, none⟩) ?_ ?_
  · refine head_opt_some ?_ (by simp only [progressed, List.length_cons, bne_iff_ne]; omega)
    unfold charsetPrefix
    refine head_seq (t := ⟨d :: '\'' :: '\'' :: v, none⟩) ?_ ?_
    · simp [lit, run, stepChar]
    refine head_seq (t := ⟨'\'' :: '\'' :: v, none⟩) ?_ ?_
    · rw [run_cls_cons, (digitClass_accepts d).2 hd]; rfl
    · exact head_star_cls false ['\'', '"'] none ['\'', '\''] v
        (fun x hx => (quoteClass_accepts x).2 (Or.inl (by simpa using hx)))
        (blocks_quote_of_clean v hv)
  refine head_seq (t := ⟨[], some v⟩) ?_ (run_tail_nil _)
  have h := head_group (head_star_cls true stopChars none v []
    (fun x hx => (nameClass_accepts x).2 (hv x hx)) (blocks_nil _ _))
  rw [List.append_nil] at h
  rw [h]
  have := consumed_append v [] none none
  rw [List.append_nil] at this
  rw [this]

/-- After the key `filename=` the match is decided by the value pattern. -/
theorem matchAt_filename_eq (v : List Char) :
    matchAt filenamePattern ('f' :: 'i' :: 'l' :: 'e' :: 'n' :: 'a' :: 'm' :: 'e' :: '=' :: v)
      = (run valuePattern ⟨v, none⟩).head? := by
  have h1 : ¬ canonicalize '=' = canonicalize '*' := by decide
  simp [matchAt, filenamePattern, lit, run_seq, run_opt, run_empty, run_chr_cons, h1]

/-- After the key `filename*=` the match is decided by the value pattern. -/
theorem matchAt_filename_star_eq (v : List Char) :
    matchAt filenamePattern
        ('f' :: 'i' :: 'l' :: 'e' :: 'n' :: 'a' :: 'm' :: 'e' :: '*' :: '=' :: v)
      = (run valuePattern ⟨v, none⟩).head? := by
  have h1 : ¬ canonicalize '*' = canonicalize '=' := by decide
  simp [matchAt, filenamePattern, lit, run_seq, run_opt, run_empty, run_chr_cons, progressed, h1]

/-- No match can start at a character other than `f` or `F`. -/
theorem matchAt_filename_none (x : Char) (xs : List Char)
    (h : ¬ canonicalize x = canonicalize 'f') : matchAt filenamePattern (x :: xs) = none := by
  simp [matchAt, filenamePattern, lit, run_seq, run_chr_cons, h]

theorem exec_of_matchAt {r : Regex} {t : List Char} {m : MState} (h : matchAt r t = some m) :
    exec r t = some m := by
  cases t with
  | nil => exact h
  | cons c cs => simp [exec, h]

theorem exec_cons_none {r : Regex} {c : Char} {cs : List Char}
    (h : matchAt r (c :: cs) = none) : exec r (c :: cs) = exec r cs := by
  simp [exec, h]

/-- Start indices at which the first character is not an `f` are passed
over. -/
theorem exec_skip (p rest : List Char) (h : ∀ c ∈ p, ¬ canonicalize c = canonicalize 'f') :
    exec filenamePattern (p ++ rest) = exec filenamePattern rest := by
  induction p with
  | nil => rfl
  | cons x xs ih =>
    have hx := matchAt_filename_none x (xs ++ rest) (h x (List.mem_cons_self _ _))
    rw [List.cons_append, exec_cons_none hx]
    exact ih (fun c hc => h c (List.mem_cons_of_mem _ hc))

/-- The header `attachment; ` followed by `tail`: the search starts at
`tail`. -/
theorem exec_attachment (tail : List Char) :
    exec filenamePattern ("attachment; ".data ++ tail) = exec filenamePattern tail :=
  exec_skip _ _ (by decide)

theorem exec_filename_nil : exec filenamePattern [] = none := by decide

/-- A match with a non-empty capture gives the download name. -/
theorem resolveFilename_of_exec (d fallback : String) (w rest : List Char)
    (h : exec filenamePattern d.data = some ⟨rest, some w⟩) (hw : w ≠ []) :
    resolveFilename (some d) fallback = String.mk w := by
  have hd : d.data ≠ [] := by
    intro e
    rw [e, exec_filename_nil] at h
    cases h
  simp [resolveFilename, headerFilename, hd, h, hw]

/-! ### Every path of the matcher -/

theorem mem_stepChar {p : Char → Bool} {s t : MState} (h : t ∈ stepChar p s) :
    ∃ x, s.rest = x :: t.rest ∧ p x = true ∧ t.cap = s.cap := by
  unfold stepChar at h
  split at h
  · simp at h
  · rename_i x xs hs
    split at h
    · rename_i hp
      simp only [List.mem_singleton] at h
      subst h
      exact ⟨x, hs, hp, rfl⟩
    · simp at h

theorem starLoop_suffix (body : MState → List MState)
    (hb : ∀ s t, t ∈ body s → t.rest <:+ s.rest) :
    ∀ (fuel : Nat) (s t : MState), t ∈ starLoop body fuel s → t.rest <:+ s.rest := by
  intro fuel
  induction fuel with
  | zero =>
    intro s t h
    simp only [starLoop, List.mem_singleton] at h
    subst h
    exact List.suffix_refl _
  | succ n ih =>
    intro s t h
    simp only [starLoop, List.mem_append, List.mem_flatMap, List.mem_filter,
      List.mem_singleton] at h
    rcases h with ⟨u, ⟨hu, _⟩, ht⟩ | rfl
    · exact (ih u t ht).trans (hb s u hu)
    · exact List.suffix_refl _

/-- Every path of the matcher ends at a suffix of the text it started on. -/
theorem run_suffix : ∀ (r : Regex) (s t : MState), t ∈ run r s → t.rest <:+ s.rest := by
  intro r
  induction r with
  | chr c =>
    intro s t h
    obtain ⟨x, hx, _, _⟩ := mem_stepChar h
    rw [hx]; exact List.suffix_cons _ _
  | cls neg ms =>
    intro s t h
    obtain ⟨x, hx, _, _⟩ := mem_stepChar h
    rw [hx]; exact List.suffix_cons _ _
  | seq a b iha ihb =>
    intro s t h
    rw [run_seq, List.mem_flatMap] at h
    obtain ⟨u, hu, ht⟩ := h
    exact (ihb u t ht).trans (iha s u hu)
  | opt a iha =>
    intro s t h
    rw [run_opt, List.mem_append, List.mem_filter, List.mem_singleton] at h
    rcases h with ⟨h, _⟩ | rfl
    · exact iha s t h
    · exact List.suffix_refl _
  | star a iha =>
    intro s t h
    rw [run_star] at h
    exact starLoop_suffix (run a) iha _ s t h
  | group a iha =>
    intro s t h
    rw [run_group, List.mem_map] at h
    obtain ⟨u, hu, rfl⟩ := h
    exact iha s u hu
  | empty =>
    intro s t h
    rw [run_empty, List.mem_singleton] at h
    subst h
    exact List.suffix_refl _

theorem starLoop_cap (body : MState → List MState)
    (hb : ∀ s t, t ∈ body s → t.cap = s.cap) :
    ∀ (fuel : Nat) (s t : MState), t ∈ starLoop body fuel s → t.cap = s.cap := by
  intro fuel
  induction fuel with
  | zero =>
    intro s t h
    simp only [starLoop, List.mem_singleton] at h
    subst h; rfl
  | succ n ih =>
    intro s t h
    simp only [starLoop, List.mem_append, List.mem_flatMap, List.mem_filter,
      List.mem_singleton] at h
    rcases h with ⟨u, ⟨hu, _⟩, ht⟩ | rfl
    · rw [ih u t ht, hb s u hu]
    · rfl

/-- A pattern without the capturing group leaves the capture as it was. -/
theorem run_cap : ∀ (r : Regex), hasGroup r = false →
    ∀ (s t : MState), t ∈ run r s → t.cap = s.cap := by
  intro r
  induction r with
  | chr c =>
    intro _ s t h
    obtain ⟨x, _, _, hc⟩ := mem_stepChar h
    exact hc
  | cls neg ms =>
    intro _ s t h
    obtain ⟨x, _, _, hc⟩ := mem_stepChar h
    exact hc
  | seq a b iha ihb =>
    intro hg s t h
    simp only [hasGroup, Bool.or_eq_false_iff] at hg
    rw [run_seq, List.mem_flatMap] at h
    obtain ⟨u, hu, ht⟩ := h
    rw [ihb hg.2 u t ht, iha hg.1 s u hu]
  | opt a iha =>
    intro hg s t h
    rw [run_opt, List.mem_append, List.mem_filter, List.mem_singleton] at h
    rcases h with ⟨h, _⟩ | rfl
    · exact iha hg s t h
    · rfl
  | star a iha =>
    intro hg s t h
    rw [run_star] at h
    exact starLoop_cap (run a) (iha hg) _ s t h
  | group a _ =>
    intro hg; simp [hasGroup] at hg
  | empty =>
    intro _ s t h
    rw [run_empty, List.mem_singleton] at h
    subst h; rfl

/-- What `*` over a class reads is a run of characters of the class. -/
theorem starLoop_cls_mem (neg : Bool) (ms : List Char) :
    ∀ (fuel : Nat) (s t : MState), t ∈ starLoop (run (.cls neg ms)) fuel s →
      ∃ w, s.rest = w ++ t.rest ∧ ∀ x ∈ w, classMatch neg ms x = true := by
  intro fuel
  induction fuel with
  | zero =>
    intro s t h
    simp only [starLoop, List.mem_singleton] at h
    subst h
    exact ⟨[], rfl, by simp⟩
  | succ n ih =>
    intro s t h
    simp only [starLoop, List.mem_append, List.mem_flatMap, List.mem_filter,
      List.mem_singleton] at h
    rcases h with ⟨u, ⟨hu, _⟩, ht⟩ | rfl
    · obtain ⟨x, hx, hp, _⟩ := mem_stepChar hu
      obtain ⟨w, hw, hall⟩ := ih u t ht
      refine ⟨x :: w, by rw [hx, hw]; rfl, ?_⟩
      intro y hy
      rcases List.mem_cons.1 hy with rfl | hy
      · exact hp
      · exact hall y hy
    · exact ⟨[], rfl, by simp⟩

/-- The capture of the group `([^;\r\n"']*)`: a run of characters outside the
class's list, read at the place where the group started. -/
theorem run_nameGroup_mem (s t : MState) (h : t ∈ run (.group (.star nameClass)) s) :
    ∃ w, t.cap = some w ∧ s.rest = w ++ t.rest ∧ ∀ c ∈ w, c ∉ stopChars := by
  rw [run_group, List.mem_map] at h
  obtain ⟨u, hu, rfl⟩ := h
  rw [run_star] at hu
  obtain ⟨w, hw, hall⟩ := starLoop_cls_mem true stopChars _ s u hu
  refine ⟨w, ?_, hw, fun c hc => (nameClass_accepts c).1 (hall c hc)⟩
  simp [consumed, hw]

/-- Shape of every match of the whole pattern: capture 1 is defined, lies
inside the text, and holds none of the excluded characters. -/
theorem run_filenamePattern_mem (text : List Char) (m : MState)
    (h : m ∈ run filenamePattern ⟨text, none⟩) :
    ∃ w, m.cap = some w ∧ w <:+: text ∧ ∀ c ∈ w, c ∉ stopChars := by
  unfold filenamePattern valuePattern at h
  simp only [run_seq, List.mem_flatMap] at h
  obtain ⟨s1, h1, s2, h2, s3, h3, s4, h4, s5, h5, s6, h6, hm⟩ := h
  have e1 := run_suffix _ _ _ h1
  have e2 := run_suffix _ _ _ h2
  have e3 := run_suffix _ _ _ h3
  have e4 := run_suffix _ _ _ h4
  have e5 := run_suffix _ _ _ h5
  have e : s5.rest <:+ text := e5.trans (e4.trans (e3.trans (e2.trans e1)))
  obtain ⟨w, hc, hw, hall⟩ := run_nameGroup_mem s5 s6 h6
  have hcap : m.cap = s6.cap := by
    have := run_cap (.seq (.opt quoteClass) (.opt (.chr ';'))) (by decide) s6 m
    apply this
    rw [run_seq, List.mem_flatMap]
    exact hm
  refine ⟨w, by rw [hcap, hc], ?_, hall⟩
  have hi : w <:+: s5.rest := ⟨[], s6.rest, by simp [hw]⟩
  exact hi.trans e.isInfix

/-- A run of pattern characters reads a text that is equal to it once the
case of letters is folded. -/
theorem run_lit_mem : ∀ (l : List Char) (s t : MState), t ∈ run (lit l) s →
    ∃ w, s.rest = w ++ t.rest ∧ w.map canonicalize = l.map canonicalize := by
  intro l
  induction l with
  | nil =>
    intro s t h
    simp only [lit, run_empty, List.mem_singleton] at h
    subst h
    exact ⟨[], rfl, rfl⟩
  | cons c cs ih =>
    intro s t h
    simp only [lit, run_seq, List.mem_flatMap] at h
    obtain ⟨u, hu, ht⟩ := h
    obtain ⟨x, hx, hp, _⟩ := mem_stepChar hu
    obtain ⟨w, hw, hmap⟩ := ih u t ht
    refine ⟨x :: w, by rw [hx, hw]; rfl, ?_⟩
    simp only [beq_iff_eq] at hp
    simp [hp, hmap]

/-- Every match of the pattern starts with the key: `filename` in some letter
case, then `=` or `*=`. -/
theorem run_filenamePattern_key (text : List Char) (m : MState)
    (h : m ∈ run filenamePattern ⟨text, none⟩) :
    ∃ w rest, w.map canonicalize = "filename".data.map canonicalize
      ∧ (text = w ++ '=' :: rest ∨ text = w ++ '*' :: '=' :: rest) := by
  unfold filenamePattern at h
  simp only [run_seq, List.mem_flatMap] at h
  obtain ⟨s1, h1, s2, h2, s3, h3, _⟩ := h
  obtain ⟨w, hw, hmap⟩ := run_lit_mem _ _ _ h1
  obtain ⟨e, he, hpe, _⟩ := mem_stepChar h3
  simp only [beq_iff_eq] at hpe
  have hpe2 : e = '=' := (canonicalize_eq_iff e '=' (by decide) (by decide)).1 hpe
  subst hpe2
  simp only at hw
  refine ⟨w, s3.rest, hmap, ?_⟩
  rw [run_opt, List.mem_append, List.mem_filter, List.mem_singleton] at h2
  rcases h2 with ⟨h2, _⟩ | rfl
  · obtain ⟨x, hx, hpx, _⟩ := mem_stepChar h2
    simp only [beq_iff_eq] at hpx
    have hpx2 : x = '*' := (canonicalize_eq_iff x '*' (by decide) (by decide)).1 hpx
    subst hpx2
    right
    rw [hw, hx, he]
  · left
    rw [hw, he]

/-- A text in which neither `filename=` nor `filename*=` occurs, whatever the
letter case, has no match at any start index. -/
theorem matchAt_none_of_no_key (text t : List Char) (ht : t <:+ text)
    (h1 : ¬ ("filename=".data.map canonicalize <:+: text.map canonicalize))
    (h2 : ¬ ("filename*=".data.map canonicalize <:+: text.map canonicalize)) :
    matchAt filenamePattern t = none := by
  cases hm : matchAt filenamePattern t with
  | none => rfl
  | some m =>
    exfalso
    have hmem : m ∈ run filenamePattern ⟨t, none⟩ := List.mem_of_mem_head? hm
    obtain ⟨w, rest, hmap, hcase⟩ := run_filenamePattern_key t m hmem
    have hsuf := (ht.map canonicalize).isInfix
    rcases hcase with e | e
    · apply h1
      refine List.IsInfix.trans ?_ hsuf
      refine ⟨[], rest.map canonicalize, ?_⟩
      rw [e]
      simp only [List.map_append, List.map_cons, hmap, List.nil_append]
      rfl
    · apply h2
      refine List.IsInfix.trans ?_ hsuf
      refine ⟨[], rest.map canonicalize, ?_⟩
      rw [e]
      simp only [List.map_append, List.map_cons, hmap, List.nil_append]
      rfl

theorem exec_none_of_suffixes (r : Regex) :
    ∀ (text : List Char), (∀ t, t <:+ text → matchAt r t = none) → exec r text = none := by
  intro text
  induction text with
  | nil => intro h; exact h [] (List.suffix_refl _)
  | cons c cs ih =>
    intro h
    rw [exec_cons_none (h _ (List.suffix_refl _))]
    exact ih (fun t ht => h t (ht.trans (List.suffix_cons _ _)))

/-- The match returned by the search is the match at the least start index
that has one. -/
theorem exec_leftmost (r : Regex) : ∀ (text : List Char) (m : MState),
    exec r text = some m →
    ∃ i, i ≤ text.length ∧ matchAt r (text.drop i) = some m
      ∧ ∀ j, j < i → matchAt r (text.drop j) = none := by
  intro text
  induction text with
  | nil =>
    intro m h
    exact ⟨0, Nat.le_refl _, h, fun j hj => absurd hj (Nat.not_lt_zero _)⟩
  | cons c cs ih =>
    intro m h
    cases hm : matchAt r (c :: cs) with
    | some m2 =>
      rw [exec_of_matchAt hm] at h
      cases h
      exact ⟨0, Nat.zero_le _, hm, fun j hj => absurd hj (Nat.not_lt_zero _)⟩
    | none =>
      rw [exec_cons_none hm] at h
      obtain ⟨i, hi, hmi, hlt⟩ := ih m h
      refine ⟨i + 1, by simpa using hi, by simpa using hmi, ?_⟩
      intro j hj
      cases j with
      | zero => exact hm
      | succ k => simpa using hlt k (by omega)

/-- No match and a match with an empty capture both leave the name to the
fallback. -/
theorem headerFilename_none_of_exec (d : String)
    (h : exec filenamePattern d.data = none
      ∨ ∃ rest, exec filenamePattern d.data = some ⟨rest, some []⟩) :
    headerFilename (some d) = none := by
  unfold headerFilename
  rcases h with h | ⟨rest, h⟩
  · simp [h]
  · simp [h]

/-! ### Facts about the handler -/

theorem newEvents_of_trace {p q : Page} {evs : List Event} (h : q.trace = p.trace ++ evs) :
    newEvents p q = evs := by
  simp [newEvents, h]

/-- The loop of lines 22-24 appends the files from index `i` on, in order. -/
theorem appendFiles_eq (files : List File) : ∀ (fuel i : Nat) (fd : FormData),
    files.length - i ≤ fuel →
    appendFiles files fuel i fd
      = fd ++ (files.drop i).map (fun f => ("file", PartValue.file f)) := by
  intro fuel
  induction fuel with
  | zero =>
    intro i fd h
    have : files.drop i = [] := List.drop_eq_nil_of_le (by omega)
    simp [appendFiles, this]
  | succ n ih =>
    intro i fd h
    unfold appendFiles
    split
    · rename_i hi
      rw [ih (i + 1) _ (by omega)]
      have hd : files.drop i = files.get ⟨i, hi⟩ :: files.drop (i + 1) := by
        simp
      rw [hd]
      simp only [FormData.append, List.map_cons, List.append_assoc, List.singleton_append]
    · rename_i hi
      have : files.drop i = [] := List.drop_eq_nil_of_le (by omega)
      simp [this]

/-- The payload built by lines 20-25. -/
theorem onClick_of_files (files : List File) (v : String) (p : Page) (h : files ≠ []) :
    onClick files (some v) p
      = (((p.emit (.consoleLog [.str "Clicked"])).emit
          (.fetch { url := "/process", method := "POST",
                    body := files.map (fun f => ("file", PartValue.file f))
                      ++ [("process_type", PartValue.text v)] })), true) := by
  have hl : files.length ≠ 0 := by
    intro e; exact h (List.length_eq_zero.1 e)
  simp [onClick, hl, appendFiles_eq files files.length 0 [] (by omega), FormData.append]

theorem isDownload_successPrefix (files : List File) (v : String)
    (disposition : Option String) :
    (successPrefix files v disposition).filter Event.isDownload = [] := by
  unfold successPrefix
  cases headerFilename disposition <;> rfl

/-- A successful run is the download started on the page that holds the
events before it. -/
theorem runClick_success (f : File) (fs : List File) (v : String) (r : Response) (blob : Blob)
    (p : Page) (hok : r.ok = true) (hbody : r.body = .ok blob) :
    runClick (f :: fs) (some v) (.response r) p
      = startDownload blob (resolveFilename r.disposition f.name)
          { p with trace := p.trace ++ successPrefix (f :: fs) v r.disposition } := by
  simp only [runClick, onClick_of_files (f :: fs) v p (List.cons_ne_nil _ _), settle, hok,
    hbody, downloadName, firstName, successPrefix]
  cases headerFilename r.disposition <;> simp [Page.emit]

theorem filter_fresh_nodes (l : List Node) (a : Node) (h : ∀ n ∈ l, n.id < a.id) :
    (l ++ [a]).filter (fun n => n.id != a.id) = l := by
  rw [List.filter_append]
  have h1 : l.filter (fun n => n.id != a.id) = l := by
    rw [List.filter_eq_self]
    intro n hn
    have := h n hn
    simp only [bne_iff_ne, ne_eq]
    omega
  simp [h1]

theorem filter_fresh_urls (l : List (Nat × Blob)) (u : Nat) (b : Blob)
    (h : ∀ x ∈ l, x.1 < u) :
    (l ++ [(u, b)]).filter (fun x => x.1 != u) = l := by
  rw [List.filter_append]
  have h1 : l.filter (fun x => x.1 != u) = l := by
    rw [List.filter_eq_self]
    intro x hx
    have := h x hx
    simp only [bne_iff_ne, ne_eq]
    omega
  simp [h1]

/-! ## The claims -/

/-- C1: for every non-empty name without `;`, carriage return, line feed, `"`
or `'` that does not begin with `UTF-` (in any letter case) and a digit, and
for every fallback, the header value `attachment; filename="<name>"` resolves
to the name. -/
theorem C1_quoted_filename (name fallback : String) (hne : name.data ≠ [])
    (hclean : ∀ c ∈ name.data, c ∉ stopChars)
    (hutf : beginsWithCharset name.data = false) :
    resolveFilename (some ("attachment; filename=\"" ++ name ++ "\"")) fallback = name := by
  have hd : ("attachment; filename=\"" ++ name ++ "\"").data
      = "attachment; ".data
        ++ ('f' :: 'i' :: 'l' :: 'e' :: 'n' :: 'a' :: 'm' :: 'e' :: '=' :: '"'
          :: (name.data ++ ['"'])) := by
    simp [String.data_append]
  have hm := valuePattern_quoted name.data hclean hutf
  rw [← matchAt_filename_eq] at hm
  have he := exec_of_matchAt hm
  rw [← exec_attachment, ← hd] at he
  rw [resolveFilename_of_exec _ fallback name.data [] he hne]

/-- C1, the spec's example: `attachment; filename="report.pdf"` resolves to
`report.pdf`. -/
theorem C1_quoted_filename_witness :
    ("report.pdf".data ≠ [] ∧ (∀ c ∈ "report.pdf".data, c ∉ stopChars)
      ∧ beginsWithCharset "report.pdf".data = false)
    ∧ resolveFilename (some "attachment; filename=\"report.pdf\"") "upload.csv"
        = "report.pdf" :=
  ⟨⟨by decide, by decide, by decide⟩,
    C1_quoted_filename "report.pdf" "upload.csv" (by decide) (by decide) (by decide)⟩

/-- C6: for every non-empty value `v` without `;`, carriage return, line feed,
`"` or `'`, and every fallback, resolving the header value
`attachment; filename*=UTF-8''<v>` returns a non-empty name, which is `v` as
written (nothing is percent-decoded). -/
theorem C6_extended_form (v fallback : String) (hne : v.data ≠ [])
    (hclean : ∀ c ∈ v.data, c ∉ stopChars) :
    resolveFilename (some ("attachment; filename*=UTF-8''" ++ v)) fallback = v
      ∧ resolveFilename (some ("attachment; filename*=UTF-8''" ++ v)) fallback ≠ "" := by
  have hd : ("attachment; filename*=UTF-8''" ++ v).data
      = "attachment; ".data
        ++ ('f' :: 'i' :: 'l' :: 'e' :: 'n' :: 'a' :: 'm' :: 'e' :: '*' :: '='
          :: 'U' :: 'T' :: 'F' :: '-' :: '8' :: '\'' :: '\'' :: v.data) := by
    simp [String.data_append]
  have hm := valuePattern_charset '8' (by decide) v.data hclean
  rw [← matchAt_filename_star_eq] at hm
  have he := exec_of_matchAt hm
  rw [← exec_attachment, ← hd] at he
  have hr := resolveFilename_of_exec _ fallback v.data [] he hne
  refine ⟨hr, ?_⟩
  rw [hr]
  intro e
  exact hne (congrArg String.data e)

/-- C6, the spec's example: `attachment; filename*=UTF-8''r%C3%A9sum%C3%A9.pdf`
resolves to `r%C3%A9sum%C3%A9.pdf`. -/
theorem C6_extended_form_witness :
    ("r%C3%A9sum%C3%A9.pdf".data ≠ [] ∧ ∀ c ∈ "r%C3%A9sum%C3%A9.pdf".data, c ∉ stopChars)
    ∧ resolveFilename (some "attachment; filename*=UTF-8''r%C3%A9sum%C3%A9.pdf") "upload.csv"
        = "r%C3%A9sum%C3%A9.pdf" :=
  ⟨⟨by decide, by decide⟩,
    (C6_extended_form "r%C3%A9sum%C3%A9.pdf" "upload.csv" (by decide) (by decide)).1⟩

/-- C7 as stated fails: with the two-digit charset of
`attachment; filename*=UTF-16''b.txt` the pattern's `\d` reads the `1` only and
the resolved name is `6`, not `b.txt`. -/
theorem C7_two_digit_counterexample :
    resolveFilename (some "attachment; filename*=UTF-16''b.txt") "upload.csv" = "6"
      ∧ resolveFilename (some "attachment; filename*=UTF-16''b.txt") "upload.csv" ≠ "b.txt" := by
  decide

/-- C7 (amended): for every header value `attachment; filename*=UTF-<d>''<v>`
where `d` is exactly one decimal digit and `v` is non-empty without `;`,
carriage return, line feed, `"` or `'`, the resolved name is `v`. -/
theorem C7_one_digit_charset (d : Char) (v fallback : String) (hd : d ∈ digitChars)
    (hne : v.data ≠ []) (hclean : ∀ c ∈ v.data, c ∉ stopChars) :
    resolveFilename (some ("attachment; filename*=UTF-" ++ String.mk [d] ++ "''" ++ v)) fallback
      = v := by
  have hdata : ("attachment; filename*=UTF-" ++ String.mk [d] ++ "''" ++ v).data
      = "attachment; ".data
        ++ ('f' :: 'i' :: 'l' :: 'e' :: 'n' :: 'a' :: 'm' :: 'e' :: '*' :: '='
          :: 'U' :: 'T' :: 'F' :: '-' :: d :: '\'' :: '\'' :: v.data) := by
    simp [String.data_append]
  have hm := valuePattern_charset d hd v.data hclean
  rw [← matchAt_filename_star_eq] at hm
  have he := exec_of_matchAt hm
  rw [← exec_attachment, ← hdata] at he
  exact resolveFilename_of_exec _ fallback v.data [] he hne

/-- C7 (amended), an instance: `attachment; filename*=UTF-7''notes.txt`
resolves to `notes.txt`. -/
theorem C7_one_digit_charset_witness :
    ('7' ∈ digitChars ∧ "notes.txt".data ≠ [] ∧ ∀ c ∈ "notes.txt".data, c ∉ stopChars)
    ∧ resolveFilename (some "attachment; filename*=UTF-7''notes.txt") "upload.csv"
        = "notes.txt" :=
  ⟨⟨by decide, by decide, by decide⟩,
    C7_one_digit_charset '7' "notes.txt" "upload.csv" (by decide) (by decide) (by decide)⟩

/-- C4: for a non-empty selection `f :: fs` the download name is the name of
the first file `f` when the response has no `Content-Disposition` header, when
the pattern does not match the header, and when it matches with an empty
capture.  A header in which neither `filename=` nor `filename*=` occurs in any
letter case is not matched, and `attachment; filename=""` is matched with an
empty capture. -/
theorem C4_fallback_to_first_file (f : File) (fs : List File) :
    downloadName (f :: fs) none = (Except.ok f.name : Except JsError String)
    ∧ (∀ d : String, exec filenamePattern d.data = none →
        downloadName (f :: fs) (some d) = (Except.ok f.name : Except JsError String))
    ∧ (∀ (d : String) (rest : List Char),
        exec filenamePattern d.data = some ⟨rest, some []⟩ →
        downloadName (f :: fs) (some d) = (Except.ok f.name : Except JsError String))
    ∧ (∀ d : String, ¬ OccursIgnoringCase "filename=" d →
        ¬ OccursIgnoringCase "filename*=" d →
        exec filenamePattern d.data = none
          ∧ downloadName (f :: fs) (some d) = (Except.ok f.name : Except JsError String))
    ∧ (exec filenamePattern "attachment; filename=\"\"".data = some ⟨[], some []⟩
        ∧ downloadName (f :: fs) (some "attachment; filename=\"\"")
            = (Except.ok f.name : Except JsError String)) := by
  have key : ∀ d : String, (exec filenamePattern d.data = none
      ∨ ∃ rest, exec filenamePattern d.data = some ⟨rest, some []⟩) →
      downloadName (f :: fs) (some d) = (Except.ok f.name : Except JsError String) := by
    intro d h
    simp [downloadName, firstName, resolveFilename, headerFilename_none_of_exec d h]
  have hex : exec filenamePattern "attachment; filename=\"\"".data = some ⟨[], some []⟩ := by
    decide
  refine ⟨rfl, fun d h => key d (Or.inl h), fun d rest h => key d (Or.inr ⟨rest, h⟩), ?_,
    hex, key _ (Or.inr ⟨[], hex⟩)⟩
  intro d h1 h2
  have hn : exec filenamePattern d.data = none :=
    exec_none_of_suffixes _ _ (fun t ht => matchAt_none_of_no_key d.data t ht h1 h2)
  exact ⟨hn, key d (Or.inl hn)⟩

/-- C4, an instance: with the selection `upload.csv`, `notes.txt` and the
header value `inline`, in which no `filename` key occurs, the download name is
`upload.csv`. -/
theorem C4_fallback_to_first_file_witness :
    (¬ OccursIgnoringCase "filename=" "inline" ∧ ¬ OccursIgnoringCase "filename*=" "inline")
    ∧ downloadName [⟨"upload.csv", [1, 2]⟩, ⟨"notes.txt", [3]⟩] (some "inline")
        = (Except.ok "upload.csv" : Except JsError String) :=
  ⟨⟨by decide, by decide⟩,
    ((C4_fallback_to_first_file ⟨"upload.csv", [1, 2]⟩ [⟨"notes.txt", [3]⟩]).2.2.2.1
      "inline" (by decide) (by decide)).2⟩

/-- C10: for every header value `h` and fallback, the resolved name is the
fallback, or it is the capture `w` of the match at the least start index `i` of
`h` at which the pattern matches, and then `w` is non-empty, is a contiguous
piece of `h` from index `i` on, and holds none of `;`, carriage return, line
feed, `"`, `'`.  With two `filename` parameters,
`attachment; filename="a.txt"; filename*=UTF-8''b.txt` resolves to `a.txt`. -/
theorem C10_resolved_shape (h fallback : String) :
    (resolveFilename (some h) fallback = fallback
      ∨ ∃ (i : Nat) (m : MState) (w : List Char), i ≤ h.data.length
          ∧ matchAt filenamePattern (h.data.drop i) = some m
          ∧ (∀ j, j < i → matchAt filenamePattern (h.data.drop j) = none)
          ∧ m.cap = some w
          ∧ resolveFilename (some h) fallback = String.mk w
          ∧ w ≠ [] ∧ w <:+: h.data.drop i ∧ w <:+: h.data
          ∧ ∀ c ∈ w, c ∉ stopChars)
    ∧ resolveFilename (some "attachment; filename=\"a.txt\"; filename*=UTF-8''b.txt") fallback
        = "a.txt" := by
  constructor
  · cases he : exec filenamePattern h.data with
    | none =>
      left
      simp [resolveFilename, headerFilename, he]
    | some m =>
      obtain ⟨i, hi, hmi, hlt⟩ := exec_leftmost _ _ _ he
      obtain ⟨w, hcap, hinf, hclean⟩ :=
        run_filenamePattern_mem _ m (List.mem_of_mem_head? hmi)
      by_cases hw : w = []
      · left
        simp [resolveFilename, headerFilename, he, hcap, hw]
      · right
        refine ⟨i, m, w, hi, hmi, hlt, hcap, ?_, hw, hinf,
          hinf.trans (List.drop_suffix _ _).isInfix, hclean⟩
        have hd : h.data ≠ [] := by
          intro e
          rw [e, exec_filename_nil] at he
          cases he
        simp [resolveFilename, headerFilename, he, hcap, hw, hd]
  · have he : exec filenamePattern
        "attachment; filename=\"a.txt\"; filename*=UTF-8''b.txt".data
        = some ⟨" filename*=UTF-8''b.txt".data, some "a.txt".data⟩ := by decide
    exact resolveFilename_of_exec _ fallback _ _ he (by decide)

/-- C2 as stated fails: with no file selected and no radio button checked,
line 13 throws before the guard of line 15 and no alert is shown. -/
theorem C2_unchecked_counterexample :
    (newEvents Page.blank (runClick [] none (.rejected ⟨"TypeError", "Failed to fetch"⟩)
        Page.blank)).filter Event.isAlert = []
      ∧ newEvents Page.blank (runClick [] none (.rejected ⟨"TypeError", "Failed to fetch"⟩)
          Page.blank) = [.uncaught nullValueError] := by
  decide

/-- C2 (amended): for every click with no file selected, no network request is
issued, whatever the state of the radio buttons; and when a `process_type`
radio button is checked, the alert `Please select a file.` is shown exactly
once. -/
theorem C2_empty_selection_guard (checked : Option String) (v : String) (o : FetchOutcome)
    (p : Page) :
    (newEvents p (runClick [] checked o p)).filter Event.isFetch = []
      ∧ (newEvents p (runClick [] (some v) o p)).filter Event.isAlert
          = [.alert "Please select a file."] := by
  constructor
  · cases checked with
    | none =>
      have h : (runClick [] none o p).trace = p.trace ++ [.uncaught nullValueError] := rfl
      rw [newEvents_of_trace h]; rfl
    | some w =>
      have h : (runClick [] (some w) o p).trace
          = p.trace ++ [.consoleLog [.str "Clicked"], .alert "Please select a file."] := by
        simp [runClick, onClick, Page.emit]
      rw [newEvents_of_trace h]; rfl
  · have h : (runClick [] (some v) o p).trace
        = p.trace ++ [.consoleLog [.str "Clicked"], .alert "Please select a file."] := by
      simp [runClick, onClick, Page.emit]
    rw [newEvents_of_trace h]; rfl

/-- C3: for every non-empty selection and every checked value `v`, the click
issues one request, a `POST` to `/process`, whose body holds one `file` part
per selected file, in the order of the selection and with the file unchanged,
followed by one `process_type` part of value `v`, and nothing else. -/
theorem C3_multipart_completeness (files : List File) (v : String) (p : Page)
    (h : files ≠ []) :
    (newEvents p (onClick files (some v) p).1).filter Event.isFetch
      = [.fetch { url := "/process", method := "POST",
                  body := files.map (fun f => ("file", PartValue.file f))
                    ++ [("process_type", PartValue.text v)] }]
      ∧ (onClick files (some v) p).2 = true := by
  rw [onClick_of_files files v p h]
  refine ⟨?_, rfl⟩
  have ht : ((p.emit (.consoleLog [.str "Clicked"])).emit
      (.fetch { url := "/process", method := "POST",
                body := files.map (fun f => ("file", PartValue.file f))
                  ++ [("process_type", PartValue.text v)] })).trace
      = p.trace ++ [.consoleLog [.str "Clicked"],
          .fetch { url := "/process", method := "POST",
                   body := files.map (fun f => ("file", PartValue.file f))
                     ++ [("process_type", PartValue.text v)] }] := by
    simp [Page.emit]
  rw [newEvents_of_trace ht]; rfl

/-- C3, an instance: two files and the mode `merge` give the parts `file`,
`file`, `process_type` in that order. -/
theorem C3_multipart_completeness_witness :
    ([⟨"a.csv", [1]⟩, ⟨"b.csv", [2, 3]⟩] : List File) ≠ []
    ∧ (newEvents Page.blank
        (onClick [⟨"a.csv", [1]⟩, ⟨"b.csv", [2, 3]⟩] (some "merge") Page.blank).1).filter
          Event.isFetch
      = [.fetch { url := "/process", method := "POST",
                  body := [("file", .file ⟨"a.csv", [1]⟩), ("file", .file ⟨"b.csv", [2, 3]⟩),
                    ("process_type", .text "merge")] }] :=
  ⟨by decide,
    (C3_multipart_completeness [⟨"a.csv", [1]⟩, ⟨"b.csv", [2, 3]⟩] "merge" Page.blank
      (by decide)).1⟩

/-- C5 as stated fails: a click with one file whose request is answered with
status 500 leaves two console entries, the `Clicked` entry of line 14 and the
error entry of line 62, not one. -/
theorem C5_two_console_entries_counterexample :
    (newEvents Page.blank
        (runClick [⟨"upload.csv", [1]⟩] (some "merge")
          (.response { status := 500, disposition := none, body := .ok ⟨[]⟩ })
          Page.blank)).filter Event.isConsole
      = [.consoleLog [.str "Clicked"],
         .consoleError [.str "Error processing file:", .err notOkError]]
    ∧ ((newEvents Page.blank
        (runClick [⟨"upload.csv", [1]⟩] (some "merge")
          (.response { status := 500, disposition := none, body := .ok ⟨[]⟩ })
          Page.blank)).filter Event.isConsole).length ≠ 1 := by
  decide

/-- C5 (amended): for every click with at least one file selected whose request
ends in a transport failure or in a response with a non-2xx status, the run
leaves exactly two console entries, the `Clicked` entry written by every click
and exactly one error entry, and exactly one alert, whose text holds the
message of the error (for a non-2xx status it is
`Error processing file: Network response was not OK`); the body of the
response is not read and no download is triggered. -/
theorem C5_failure_surfaces_once (files : List File) (v : String) (p : Page)
    (h : files ≠ []) :
    (∀ e : JsError, FailureReport p (runClick files (some v) (.rejected e) p) e)
    ∧ (∀ r : Response, r.ok = false →
        FailureReport p (runClick files (some v) (.response r) p) notOkError)
    ∧ "Error processing file: " ++ notOkError.message
        = "Error processing file: Network response was not OK" := by
  have key : ∀ (o : FetchOutcome) (e : JsError),
      settle files o ((p.emit (.consoleLog [.str "Clicked"])).emit
          (.fetch { url := "/process", method := "POST",
                    body := files.map (fun f => ("file", PartValue.file f))
                      ++ [("process_type", PartValue.text v)] }))
        = onCatch e ((p.emit (.consoleLog [.str "Clicked"])).emit
          (.fetch { url := "/process", method := "POST",
                    body := files.map (fun f => ("file", PartValue.file f))
                      ++ [("process_type", PartValue.text v)] })) →
      FailureReport p (runClick files (some v) o p) e := by
    intro o e hs
    have hr : runClick files (some v) o p
        = onCatch e ((p.emit (.consoleLog [.str "Clicked"])).emit
          (.fetch { url := "/process", method := "POST",
                    body := files.map (fun f => ("file", PartValue.file f))
                      ++ [("process_type", PartValue.text v)] })) := by
      simp only [runClick, onClick_of_files files v p h, hs]
    have ht : (runClick files (some v) o p).trace
        = p.trace ++ [.consoleLog [.str "Clicked"],
            .fetch { url := "/process", method := "POST",
                     body := files.map (fun f => ("file", PartValue.file f))
                       ++ [("process_type", PartValue.text v)] },
            .consoleError [.str "Error processing file:", .err e],
            .alert ("Error processing file: " ++ e.message)] := by
      rw [hr]; simp [onCatch, Page.emit]
    unfold FailureReport
    rw [newEvents_of_trace ht, hr]
    refine ⟨rfl, rfl, by simp, rfl, rfl, rfl, rfl⟩
  refine ⟨fun e => key _ e rfl, fun r hr => key _ _ ?_, by decide⟩
  simp [settle, hr]

/-- C5 (amended), an instance: one file, the mode `merge`, status 500. -/
theorem C5_failure_surfaces_once_witness :
    (([⟨"upload.csv", [1]⟩] : List File) ≠ []
      ∧ Response.ok { status := 500, disposition := none, body := .ok ⟨[]⟩ } = false)
    ∧ FailureReport Page.blank
        (runClick [⟨"upload.csv", [1]⟩] (some "merge")
          (.response { status := 500, disposition := none, body := .ok ⟨[]⟩ }) Page.blank)
        notOkError :=
  ⟨⟨by decide, by decide⟩,
    (C5_failure_surfaces_once [⟨"upload.csv", [1]⟩] "merge" Page.blank (by decide)).2.1
      { status := 500, disposition := none, body := .ok ⟨[]⟩ } (by decide)⟩

/-- C9: at initialisation, when `processBtn` is missing, or `fileInput` is
missing, or both are, the only thing done is one `console.error` call and no
click handler is bound; when both are present the only thing done is to
bind one click handler to `processBtn`, and nothing is written to the
console. -/
theorem C9_setup_precondition (p : Page) :
    (∀ fileInput : Option Nat,
        setup none fileInput p = p.emit (.consoleError [.str missingElementsMessage]))
    ∧ (∀ processBtn : Option Nat,
        setup processBtn none p = p.emit (.consoleError [.str missingElementsMessage]))
    ∧ (∀ btn input : Nat,
        setup (some btn) (some input) p = p.emit (.addEventListener btn "click"))
    ∧ (∀ e : Event, newEvents p (p.emit e) = [e]) := by
  refine ⟨fun _ => rfl, fun b => ?_, fun _ _ => rfl, fun e => ?_⟩
  · cases b <;> rfl
  · exact newEvents_of_trace rfl

/-- C8: for every click that ends in a successful response (a 2xx status whose
body arrives as `blob`), on a page whose node and URL identities in use are
below the browser's counters: the handler creates one object URL and one
anchor whose `href` is that URL and whose `download` is the resolved filename,
appends the anchor to `document.body` and clicks it once, and sets one timer
of 100 ms for that anchor and that URL; when that timer has run, the anchor has
been removed and the URL revoked, the children of `document.body` are those of
before the click and the live object URLs are those of before the click. -/
theorem C8_cleanup_after_download (f : File) (fs : List File) (v : String) (r : Response)
    (blob : Blob) (p : Page) (hok : r.ok = true) (hbody : r.body = .ok blob)
    (hfresh : p.Fresh) :
    (newEvents p (runClick (f :: fs) (some v) (.response r) p)).filter Event.isDownload
        = [.createObjectURL p.nextURL, .createElement p.nextNode "a",
           .appendChild ⟨p.nextNode, "a", some p.nextURL,
              some (resolveFilename r.disposition f.name)⟩,
           .click ⟨p.nextNode, "a", some p.nextURL,
              some (resolveFilename r.disposition f.name)⟩]
    ∧ (runClick (f :: fs) (some v) (.response r) p).bodyChildren
        = p.bodyChildren ++ [⟨p.nextNode, "a", some p.nextURL,
            some (resolveFilename r.disposition f.name)⟩]
    ∧ (runClick (f :: fs) (some v) (.response r) p).objectURLs
        = p.objectURLs ++ [(p.nextURL, blob)]
    ∧ (newEvents p (runClick (f :: fs) (some v) (.response r) p)).filter
          (fun e => e == .setTimeout 100) = [.setTimeout 100]
    ∧ (runClick (f :: fs) (some v) (.response r) p).timers
        = p.timers ++ [⟨100, ⟨p.nextNode, "a", some p.nextURL,
            some (resolveFilename r.disposition f.name)⟩, p.nextURL⟩]
    ∧ newEvents (runClick (f :: fs) (some v) (.response r) p)
        (runTimer ⟨100, ⟨p.nextNode, "a", some p.nextURL,
            some (resolveFilename r.disposition f.name)⟩, p.nextURL⟩
          (runClick (f :: fs) (some v) (.response r) p))
        = [.removeChild p.nextNode, .revokeObjectURL p.nextURL]
    ∧ (runTimer ⟨100, ⟨p.nextNode, "a", some p.nextURL,
            some (resolveFilename r.disposition f.name)⟩, p.nextURL⟩
          (runClick (f :: fs) (some v) (.response r) p)).bodyChildren = p.bodyChildren
    ∧ (runTimer ⟨100, ⟨p.nextNode, "a", some p.nextURL,
            some (resolveFilename r.disposition f.name)⟩, p.nextURL⟩
          (runClick (f :: fs) (some v) (.response r) p)).objectURLs = p.objectURLs := by
  rw [runClick_success f fs v r blob p hok hbody]
  have hpre := isDownload_successPrefix (f :: fs) v r.disposition
  have hpre2 : (successPrefix (f :: fs) v r.disposition).filter
      (fun e => e == .setTimeout 100) = [] := by
    unfold successPrefix
    cases headerFilename r.disposition <;> rfl
  have ht : (startDownload blob (resolveFilename r.disposition f.name)
      { p with trace := p.trace ++ successPrefix (f :: fs) v r.disposition }).trace
      = p.trace ++ (successPrefix (f :: fs) v r.disposition
          ++ [.createObjectURL p.nextURL, .createElement p.nextNode "a",
              .appendChild ⟨p.nextNode, "a", some p.nextURL,
                some (resolveFilename r.disposition f.name)⟩,
              .click ⟨p.nextNode, "a", some p.nextURL,
                some (resolveFilename r.disposition f.name)⟩,
              .setTimeout 100]) := by
    simp [startDownload]
  have hany : (p.bodyChildren ++ [(⟨p.nextNode, "a", some p.nextURL,
      some (resolveFilename r.disposition f.name)⟩ : Node)]).any
        (fun n => n.id == p.nextNode) = true := by
    simp
  have hnodes := filter_fresh_nodes p.bodyChildren
    ⟨p.nextNode, "a", some p.nextURL, some (resolveFilename r.disposition f.name)⟩ hfresh.1
  have hurls := filter_fresh_urls p.objectURLs p.nextURL blob hfresh.2
  refine ⟨?_, rfl, rfl, ?_, rfl, ?_, ?_, ?_⟩
  · rw [newEvents_of_trace ht, List.filter_append, hpre]; rfl
  · rw [newEvents_of_trace ht, List.filter_append, hpre2]; rfl
  · apply newEvents_of_trace
    simp only [runTimer, cleanup, startDownload, hany, if_true]
  · simp only [runTimer, cleanup, startDownload, hany, if_true]
    exact hnodes
  · simp only [runTimer, cleanup, startDownload, hany, if_true]
    exact hurls

/-- C8, an instance: a page with one child, one selected file and a response
of status 200 that names the download `report.pdf`; after the timer the child
list is the one of before the click and no object URL is live. -/
theorem C8_cleanup_after_download_witness :
    (sampleResponse.ok = true ∧ samplePage.Fresh)
    ∧ (runTimer ⟨100, ⟨1, "a", some 0, some "report.pdf"⟩, 0⟩
        (runClick [⟨"upload.csv", [1]⟩] (some "merge") (.response sampleResponse)
          samplePage)).bodyChildren
      = [⟨0, "div", none, none⟩] :=
  ⟨⟨by decide, by decide⟩,
    (C8_cleanup_after_download ⟨"upload.csv", [1]⟩ [] "merge" sampleResponse ⟨[7, 7]⟩
      samplePage (by decide) rfl (by decide)).2.2.2.2.2.2.1⟩

end Script
